import Mathlib

set_option autoImplicit false

/-!
Shallow embedding of the askrella/terraform-provider-ssh core:
the SSH connection pool (ssh_pool.go), permission parsing (util.go),
and the remote file/attribute operations of SSHClient (ssh_client.go).
Go maps are modelled as association lists, timestamps as naturals,
and remote effects (dialing, command execution) as explicit oracles.
-/

namespace AskrellaSSH

/-! ### Go map operations, modelled on association lists -/

section MapOps

variable {κ : Type} {α : Type} [DecidableEq κ]

/-- Map read `m[k]`: the entry with the key (first, if any). -/
def lookupKey (k : κ) : List (κ × α) → Option α
  | [] => none
  | (k', v) :: rest => if k' = k then some v else lookupKey k rest

/-- Map write `m[k] = v`: replace the entry if present, else append. -/
def setKey (k : κ) (v : α) : List (κ × α) → List (κ × α)
  | [] => [(k, v)]
  | (k', v') :: rest => if k' = k then (k, v) :: rest else (k', v') :: setKey k v rest

/-- Map delete `delete(m, k)`. -/
def removeKey (k : κ) (l : List (κ × α)) : List (κ × α) :=
  l.filter (fun e => e.1 ≠ k)

/-- In-place mutation of the entry a lookup returned (Go stores pointers). -/
def updateKey (k : κ) (f : α → α) : List (κ × α) → List (κ × α)
  | [] => []
  | (k', v) :: rest => if k' = k then (k', f v) :: rest else (k', v) :: updateKey k f rest

/-- Go maps have unique keys. -/
def NodupKeys (l : List (κ × α)) : Prop := (l.map Prod.fst).Nodup

end MapOps

/-! ### Decimal and octal numerals (fmt "%d", "%04o", strconv.ParseUint base 8) -/

/-- Digit to character, as Go's integer formatting produces. -/
def digitChar : Nat → Char
  | 0 => '0' | 1 => '1' | 2 => '2' | 3 => '3' | 4 => '4'
  | 5 => '5' | 6 => '6' | 7 => '7' | 8 => '8' | 9 => '9'
  | _ => '*'

/-- Fuel-driven most-significant-first digit expansion, base 10. -/
def decDigitsGo : Nat → Nat → List Nat
  | 0, n => [n]
  | fuel + 1, n => if n < 10 then [n] else decDigitsGo fuel (n / 10) ++ [n % 10]

/-- Decimal digits of `n`, most significant first (fuel `n` always suffices). -/
def decDigits (n : Nat) : List Nat := decDigitsGo n n

/-- Fuel-driven most-significant-first digit expansion, base 8. -/
def octDigitsGo : Nat → Nat → List Nat
  | 0, n => [n]
  | fuel + 1, n => if n < 8 then [n] else octDigitsGo fuel (n / 8) ++ [n % 8]

/-- Octal digits of `n`, most significant first. -/
def octDigits (n : Nat) : List Nat := octDigitsGo n n

/-- Value of a most-significant-first digit list, base 10. -/
def decValue (ds : List Nat) : Nat := ds.foldl (fun a d => 10 * a + d) 0

/-- `fmt.Sprintf("%d", i)` for a Go int. -/
def intRepr (i : Int) : String :=
  if i < 0 then "-" ++ ⟨(decDigits (-i).toNat).map digitChar⟩
  else ⟨(decDigits i.toNat).map digitChar⟩

/-- A digit character of a base-8 numeral as `strconv.ParseUint(s, 8, 32)`
accepts it (`'0' ≤ c ≤ '7'`), together with its value `c - '0'`. -/
def octDigit? (c : Char) : Option Nat :=
  if c = '0' then some 0 else if c = '1' then some 1
  else if c = '2' then some 2 else if c = '3' then some 3
  else if c = '4' then some 4 else if c = '5' then some 5
  else if c = '6' then some 6 else if c = '7' then some 7 else none

/-- All characters read as octal digits, or `none` at the first bad one. -/
def octDigitsOfChars : List Char → Option (List Nat)
  | [] => some []
  | c :: cs =>
    match octDigit? c, octDigitsOfChars cs with
    | some d, some ds => some (d :: ds)
    | _, _ => none

/-- Value of a most-significant-first digit list, base 8. -/
def octValue (ds : List Nat) : Nat := ds.foldl (fun a d => 8 * a + d) 0

/-- `strconv.ParseUint(s, 8, 32)`: every character must be an octal digit, the
string non-empty, and the value at most `2^32 - 1` (otherwise ErrRange). -/
def parseUintOct32 (s : String) : Option Nat :=
  match octDigitsOfChars s.data with
  | none => none
  | some [] => none
  | some ds => if octValue ds ≤ 2 ^ 32 - 1 then some (octValue ds) else none

/-- util.go `ParsePermissions`: empty or unparsable strings default to 0644. -/
def ParsePermissions (perms : String) : Nat :=
  if perms = "" then 0o644
  else
    match parseUintOct32 perms with
    | none => 0o644
    | some p => p

/-- `fmt.Sprintf("%04o", m)`: minimal octal digits, left-padded with '0' to
width 4 (file_resource.go renders permissions back to callers this way). -/
def formatPermissions (m : Nat) : String :=
  let ds := (octDigits m).map digitChar
  ⟨List.replicate (4 - ds.length) '0' ++ ds⟩

/-- The canonical 4-padded octal spelling of an octal numeral string:
strip leading zeros (keeping a single "0") and left-pad with '0' to width 4. -/
def canonOctalString (s : String) : String :=
  let t := s.data.dropWhile (· == '0')
  let t' := if t = [] then ['0'] else t
  ⟨List.replicate (4 - t'.length) '0' ++ t'⟩

/-! ### ssh_client.go / ssh_pool.go data model -/

/-- ssh_client.go `SSHConfig`. -/
structure SSHConfig where
  Host : String
  Port : Int
  Username : String
  Password : String
  PrivateKey : String
deriving DecidableEq, Repr

/-- ssh_client.go `FileOwnership`. -/
structure FileOwnership where
  User : String
  Group : String
deriving DecidableEq, Repr

/-- ssh_client.go `FileAttributes`. -/
structure FileAttributes where
  Immutable : Bool
  AppendOnly : Bool
  NoDump : Bool
  Synchronous : Bool
  NoAtime : Bool
  Compressed : Bool
  NoCoW : Bool
  Undeletable : Bool
deriving DecidableEq, Repr

/-- ssh_pool.go `pooledClient`. `clientId` stands for the identity of the
underlying `*SSHClient`; `alive` is what the liveness probe on the underlying
connection (`pc.client.sshClient.Conn.Wait() == nil`) reports at call time;
`closeFired` is the state of the `sync.Once` close guard. -/
structure PooledClient where
  clientId : Nat
  lastUsed : Nat
  inUse : Bool
  alive : Bool
  closeFired : Bool
deriving DecidableEq, Repr

/-- ssh_pool.go `SSHPool` (the lock and logger carry no pool state). -/
structure SSHPool where
  clients : List (String × PooledClient)
  maxIdle : Nat
  maxConns : Nat
deriving DecidableEq, Repr

/-- Errors an Acquire can surface. -/
inductive AcquireError where
  | poolExhausted (max : Nat)
  | connectFailed
deriving DecidableEq, Repr

/-- ssh_pool.go `configKey`: `fmt.Sprintf("%s:%d:%s", Host, Port, Username)`. -/
def configKey (config : SSHConfig) : String :=
  config.Host ++ ":" ++ intRepr config.Port ++ ":" ++ config.Username

/-- The tail of `GetClient` once no reusable entry was found: the capacity
check, the dial (`connect` is the `NewSSHClient` oracle: `some id` means a
fresh client with identity `id`, `none` a dial/auth failure), and the insert
of a new in-use entry. -/
def acquireFresh (p : SSHPool) (now : Nat) (key : String) (connect : Option Nat) :
    Except AcquireError Nat × SSHPool :=
  if p.maxConns ≤ p.clients.length then
    (.error (.poolExhausted p.maxConns), p)
  else
    match connect with
    | none => (.error .connectFailed, p)
    | some id =>
      let entry : PooledClient :=
        { clientId := id, lastUsed := now, inUse := true, alive := true,
          closeFired := false }
      (.ok id, { p with clients := setKey key entry p.clients })

/-- ssh_pool.go `SSHPool.GetClient`. `now` models `time.Now()`. -/
def GetClient (p : SSHPool) (now : Nat) (config : SSHConfig) (connect : Option Nat) :
    Except AcquireError Nat × SSHPool :=
  let key := configKey config
  match lookupKey key p.clients with
  | some pc =>
    if pc.inUse = false then
      if pc.alive then
        (.ok pc.clientId,
         { p with clients :=
            updateKey key (fun q => { q with inUse := true, lastUsed := now }) p.clients })
      else
        acquireFresh { p with clients := removeKey key p.clients } now key connect
    else
      acquireFresh p now key connect
  | none => acquireFresh p now key connect

/-- ssh_pool.go `SSHPool.ReleaseClient`. -/
def ReleaseClient (p : SSHPool) (now : Nat) (config : SSHConfig) : SSHPool :=
  let key := configKey config
  match lookupKey key p.clients with
  | some _ =>
    { p with clients :=
        updateKey key (fun q => { q with inUse := false, lastUsed := now }) p.clients }
  | none => p

/-- The reap condition of one pass of ssh_pool.go `cleanup`:
`!pc.inUse && now.Sub(pc.lastUsed) > p.maxIdle`. -/
def shouldReap (maxIdle : Nat) (now : Nat) (pc : PooledClient) : Bool :=
  !pc.inUse && decide (maxIdle < now - pc.lastUsed)

/-- One tick of the ssh_pool.go `cleanup` goroutine: drop every entry whose
reap condition holds. -/
def cleanupPass (p : SSHPool) (now : Nat) : SSHPool :=
  { p with clients := p.clients.filter (fun e => !shouldReap p.maxIdle now e.2) }

/-- The client identities the same `cleanup` tick tears down, each through its
entry's one-shot close guard (`closeOnce.Do` runs only if it never fired). -/
def cleanupClosed (p : SSHPool) (now : Nat) : List Nat :=
  (p.clients.filter (fun e => shouldReap p.maxIdle now e.2)).filterMap
    (fun e => if e.2.closeFired then none else some e.2.clientId)

/-! ### Remote filesystem model for the SFTP-backed operations -/

/-- The remote filesystem as the SFTP layer sees it: the existing paths (as
component lists) with their mode bits. -/
structure RemoteFS where
  entries : List (List String × Nat)
deriving DecidableEq, Repr

/-- ssh_client.go `Exists`: `Stat` succeeds exactly on present paths. -/
def ExistsPath (fs : RemoteFS) (path : List String) : Bool :=
  (lookupKey path fs.entries).isSome

/-- The mode the server gives directories `sftp.MkdirAll` creates (the claims
do not depend on its value). -/
def sftpDefaultDirMode : Nat := 0o755

/-- The non-empty prefixes of a path, shortest first. -/
def pathPrefixes (p : List String) : List (List String) :=
  (List.range p.length).map (fun i => p.take (i + 1))

/-- `sftp.Client.MkdirAll`: create every missing ancestor, then the directory
itself; existing entries are left alone. -/
def MkdirAll (fs : RemoteFS) (path : List String) : RemoteFS :=
  { entries :=
      (pathPrefixes path).foldl
        (fun es q => if (lookupKey q es).isSome then es else setKey q sftpDefaultDirMode es)
        fs.entries }

/-- `sftp.Client.Chmod`: set the mode of an existing path. -/
def Chmod (fs : RemoteFS) (path : List String) (mode : Nat) : Except String RemoteFS :=
  if (lookupKey path fs.entries).isSome then .ok { entries := setKey path mode fs.entries }
  else .error "file does not exist"

/-- ssh_client.go `GetFileMode`: `Stat` then `info.Mode().Perm()` (the low
nine permission bits). -/
def GetFileMode (fs : RemoteFS) (path : List String) : Except String Nat :=
  match lookupKey path fs.entries with
  | some m => .ok (m &&& 0o777)
  | none => .error "failed to get file mode"

/-- ssh_client.go `CreateDirectory`: refuse an existing path, else `MkdirAll`
then `Chmod`. Returns the call's outcome with the final remote filesystem. -/
def CreateDirectory (fs : RemoteFS) (path : List String) (mode : Nat) :
    Except String Unit × RemoteFS :=
  if ExistsPath fs path then (.error "directory already exists", fs)
  else
    let fs1 := MkdirAll fs path
    match Chmod fs1 path mode with
    | .ok fs2 => (.ok (), fs2)
    | .error e => (.error e, fs1)

/-! ### Command-issuing operations (ownership and attributes) -/

/-- A remote mutation command issued over an ephemeral session, by shape. -/
inductive RemoteCmd where
  | chown (user group path : String)
  | chattrAdd (flags : String) (path : String)
  | chattrRemove (flags : String) (path : String)
deriving DecidableEq, Repr

/-- ssh_client.go `SetFileOwnership`. `current` is the `GetFileOwnership`
oracle, consulted only where the code calls it. Returns whether the current
ownership was read, and the mutation commands issued. -/
def SetFileOwnership (current : Except String FileOwnership) (path : String)
    (ownership : Option FileOwnership) : Except String (Bool × List RemoteCmd) :=
  match ownership with
  | none => .ok (false, [])
  | some o =>
    if o.User = "" ∧ o.Group = "" then .ok (false, [])
    else if o.User ≠ "" ∧ o.Group ≠ "" then .ok (false, [.chown o.User o.Group path])
    else if o.User ≠ "" then
      match current with
      | .ok cur => .ok (true, [.chown o.User cur.Group path])
      | .error e => .error ("failed to get current ownership: " ++ e)
    else if o.Group ≠ "" then
      match current with
      | .ok cur => .ok (true, [.chown cur.User o.Group path])
      | .error e => .error ("failed to get current ownership: " ++ e)
    else .ok (false, [])

/-- The flag table of ssh_client.go `SetFileAttributes` (`attrFlags`), paired
with the desired values. -/
def attrFlags (attrs : FileAttributes) : List (String × Bool) :=
  [("i", attrs.Immutable), ("a", attrs.AppendOnly), ("d", attrs.NoDump),
   ("S", attrs.Synchronous), ("A", attrs.NoAtime), ("c", attrs.Compressed),
   ("C", attrs.NoCoW), ("u", attrs.Undeletable)]

/-- `currentAttrMap[flag]` of ssh_client.go (a Go map read; keys outside the
table give false). -/
def currentAttrVal (cur : FileAttributes) (flag : String) : Bool :=
  if flag = "i" then cur.Immutable else if flag = "a" then cur.AppendOnly
  else if flag = "d" then cur.NoDump else if flag = "S" then cur.Synchronous
  else if flag = "A" then cur.NoAtime else if flag = "c" then cur.Compressed
  else if flag = "C" then cur.NoCoW else if flag = "u" then cur.Undeletable
  else false

/-- The `addAttrs` list: flags desired true but currently false, in table order. -/
def addAttrs (attrs cur : FileAttributes) : List String :=
  (attrFlags attrs).filterMap
    (fun f => if f.2 && !currentAttrVal cur f.1 then some f.1 else none)

/-- The `removeAttrs` list: flags desired false but currently true. -/
def removeAttrs (attrs cur : FileAttributes) : List String :=
  (attrFlags attrs).filterMap
    (fun f => if !f.2 && currentAttrVal cur f.1 then some f.1 else none)

/-- ssh_client.go `SetFileAttributes`: diff against the current attributes
(`cur`, the `GetFileAttributes` read), then at most one `chattr +` and one
`chattr -` command. -/
def SetFileAttributes (cur : FileAttributes) (path : String)
    (attrs : Option FileAttributes) : List RemoteCmd :=
  match attrs with
  | none => []
  | some a =>
    (if addAttrs a cur ≠ [] then [.chattrAdd (String.join (addAttrs a cur)) path] else []) ++
    (if removeAttrs a cur ≠ [] then [.chattrRemove (String.join (removeAttrs a cur)) path] else [])

/-- All-false attributes (`&FileAttributes{}`). -/
def emptyAttrs : FileAttributes :=
  { Immutable := false, AppendOnly := false, NoDump := false, Synchronous := false,
    NoAtime := false, Compressed := false, NoCoW := false, Undeletable := false }

/-- The parsing step of ssh_client.go `GetFileAttributes`: with at least 16
bytes of `lsattr -d` output, each flag is substring containment in the first
16 characters; shorter output leaves the zero value. -/
def parseLsattr (output : List Char) : FileAttributes :=
  if 16 ≤ output.length then
    let attrString := output.take 16
    { Immutable := attrString.contains 'i', AppendOnly := attrString.contains 'a',
      NoDump := attrString.contains 'd', Synchronous := attrString.contains 'S',
      NoAtime := attrString.contains 'A', Compressed := attrString.contains 'c',
      NoCoW := attrString.contains 'C', Undeletable := attrString.contains 'u' }
  else emptyAttrs

/-- ssh_client.go `GetFileAttributes`: propagate a command failure, otherwise
parse; parsing itself cannot fail. -/
def GetFileAttributes (output : Except String (List Char)) : Except String FileAttributes :=
  match output with
  | .error e => .error ("failed to get file attributes: " ++ e)
  | .ok out => .ok (parseLsattr out)

/-! ### Association-list lemmas -/

section MapLemmas

variable {κ : Type} {α : Type} [DecidableEq κ]

theorem lookupKey_setKey_self (k : κ) (v : α) (l : List (κ × α)) :
    lookupKey k (setKey k v l) = some v := by
  induction l with
  | nil => simp [setKey, lookupKey]
  | cons e rest ih =>
    obtain ⟨k', v'⟩ := e
    by_cases h : k' = k <;> simp [setKey, lookupKey, h, ih]

theorem lookupKey_setKey_ne (k k' : κ) (v : α) (l : List (κ × α)) (h : k' ≠ k) :
    lookupKey k' (setKey k v l) = lookupKey k' l := by
  have h' : k ≠ k' := Ne.symm h
  induction l with
  | nil => simp [setKey, lookupKey, h']
  | cons e rest ih =>
    obtain ⟨k₀, v₀⟩ := e
    by_cases h₀ : k₀ = k
    · subst h₀
      simp [setKey, lookupKey, h']
    · simp [setKey, lookupKey, h₀, ih]

theorem lookupKey_updateKey_self (k : κ) (f : α → α) (l : List (κ × α)) :
    lookupKey k (updateKey k f l) = (lookupKey k l).map f := by
  induction l with
  | nil => simp [updateKey, lookupKey]
  | cons e rest ih =>
    obtain ⟨k₀, v₀⟩ := e
    by_cases h₀ : k₀ = k <;> simp [updateKey, lookupKey, h₀, ih]

theorem lookupKey_updateKey_ne (k k' : κ) (f : α → α) (l : List (κ × α)) (h : k' ≠ k) :
    lookupKey k' (updateKey k f l) = lookupKey k' l := by
  have h' : k ≠ k' := Ne.symm h
  induction l with
  | nil => simp [updateKey]
  | cons e rest ih =>
    obtain ⟨k₀, v₀⟩ := e
    by_cases h₀ : k₀ = k
    · subst h₀
      simp [updateKey, lookupKey, h']
    · simp [updateKey, lookupKey, h₀, ih]

theorem lookupKey_removeKey_self (k : κ) (l : List (κ × α)) :
    lookupKey k (removeKey k l) = none := by
  induction l with
  | nil => simp [removeKey, lookupKey]
  | cons e rest ih =>
    obtain ⟨k₀, v₀⟩ := e
    by_cases h₀ : k₀ = k
    · simpa [removeKey, List.filter, h₀] using ih
    · simpa [removeKey, List.filter, h₀, lookupKey] using ih

theorem lookupKey_removeKey_ne (k k' : κ) (l : List (κ × α)) (h : k' ≠ k) :
    lookupKey k' (removeKey k l) = lookupKey k' l := by
  have h' : k ≠ k' := Ne.symm h
  induction l with
  | nil => simp [removeKey]
  | cons e rest ih =>
    obtain ⟨k₀, v₀⟩ := e
    by_cases h₀ : k₀ = k
    · subst h₀
      have hdrop : removeKey k₀ ((k₀, v₀) :: rest) = removeKey k₀ rest := by
        simp [removeKey, List.filter]
      rw [hdrop, ih]
      simp [lookupKey, h']
    · have hkeep : removeKey k ((k₀, v₀) :: rest) = (k₀, v₀) :: removeKey k rest := by
        simp [removeKey, List.filter, h₀]
      rw [hkeep]
      simp [lookupKey, ih]

theorem lookupKey_eq_none_of_not_mem (k : κ) (l : List (κ × α))
    (h : k ∉ l.map Prod.fst) : lookupKey k l = none := by
  induction l with
  | nil => simp [lookupKey]
  | cons e rest ih =>
    obtain ⟨k₀, v₀⟩ := e
    simp only [List.map_cons, List.mem_cons] at h
    push_neg at h
    have h1 : k₀ ≠ k := Ne.symm h.1
    simp [lookupKey, h1, ih h.2]

theorem lookupKey_filter_of_none (p : κ × α → Bool) (k : κ) (l : List (κ × α))
    (h : lookupKey k l = none) : lookupKey k (l.filter p) = none := by
  induction l with
  | nil => simp [lookupKey]
  | cons e rest ih =>
    obtain ⟨k₀, v₀⟩ := e
    by_cases h₀ : k₀ = k
    · simp [lookupKey, h₀] at h
    · simp only [lookupKey, h₀, if_false] at h
      by_cases hp : p (k₀, v₀) <;> simp [List.filter, hp, lookupKey, h₀, ih h]

theorem lookupKey_some_mem (k : κ) (v : α) (l : List (κ × α))
    (h : lookupKey k l = some v) : (k, v) ∈ l := by
  induction l with
  | nil => simp [lookupKey] at h
  | cons e rest ih =>
    obtain ⟨k₀, v₀⟩ := e
    by_cases h₀ : k₀ = k
    · subst h₀
      simp [lookupKey] at h
      simp [h]
    · simp only [lookupKey, h₀, if_false] at h
      exact List.mem_cons_of_mem _ (ih h)

/-- With unique keys, filtering on values commutes with lookup. -/
theorem lookupKey_filter (q : α → Bool) (l : List (κ × α)) (hnd : NodupKeys l)
    (k : κ) (v : α) (h : lookupKey k l = some v) :
    lookupKey k (l.filter (fun e => q e.2)) = if q v then some v else none := by
  induction l with
  | nil => simp [lookupKey] at h
  | cons e rest ih =>
    obtain ⟨k₀, v₀⟩ := e
    have hnd' : NodupKeys rest := by
      simpa [NodupKeys] using (List.nodup_cons.mp hnd).2
    by_cases h₀ : k₀ = k
    · subst h₀
      have hv : v₀ = v := by simpa [lookupKey] using h
      subst hv
      have hrest : lookupKey k₀ rest = none := by
        refine lookupKey_eq_none_of_not_mem _ _ ?_
        simpa [NodupKeys] using (List.nodup_cons.mp hnd).1
      by_cases hq : q v₀
      · simp [List.filter, hq, lookupKey]
      · have hnone := lookupKey_filter_of_none (fun e => q e.2) k₀ rest hrest
        simp [List.filter, hq, hnone]
    · simp only [lookupKey, h₀, if_false] at h
      by_cases hq : q v₀ <;>
        simp [List.filter, hq, lookupKey, h₀, ih hnd' h]

end MapLemmas

/-! ### Numeral lemmas -/

theorem foldl_base_ge (b : Nat) (hb : 1 ≤ b) (ds : List Nat) (a : Nat) :
    a ≤ ds.foldl (fun x d => b * x + d) a := by
  induction ds generalizing a with
  | nil => exact Nat.le_refl a
  | cons d rest ih =>
    refine Nat.le_trans ?_ (ih (b * a + d))
    have := Nat.le_mul_of_pos_left a hb
    omega

theorem decDigitsGo_fuel (f g n : Nat) (hf : n ≤ f) (hg : n ≤ g) :
    decDigitsGo f n = decDigitsGo g n := by
  induction f generalizing g n with
  | zero =>
    have hn : n = 0 := Nat.le_zero.mp hf
    subst hn
    cases g <;> simp [decDigitsGo]
  | succ f ih =>
    cases g with
    | zero =>
      have hn : n = 0 := Nat.le_zero.mp hg
      subst hn
      simp [decDigitsGo]
    | succ g =>
      simp only [decDigitsGo]
      by_cases h10 : n < 10
      · simp [h10]
      · have h1 : n / 10 ≤ f := by omega
        have h2 : n / 10 ≤ g := by omega
        simp [h10, ih g (n / 10) h1 h2]

theorem decValue_decDigitsGo (f n : Nat) (h : n ≤ f) :
    decValue (decDigitsGo f n) = n := by
  induction f generalizing n with
  | zero =>
    have hn : n = 0 := Nat.le_zero.mp h
    subst hn
    simp [decDigitsGo, decValue]
  | succ f ih =>
    by_cases h10 : n < 10
    · simp [decDigitsGo, h10, decValue]
    · have h1 : n / 10 ≤ f := by omega
      simp only [decDigitsGo, h10, if_false]
      have happ : decValue (decDigitsGo f (n / 10) ++ [n % 10]) =
          10 * decValue (decDigitsGo f (n / 10)) + n % 10 := by
        simp [decValue, List.foldl_append]
      rw [happ, ih (n / 10) h1]
      omega

theorem decDigits_injective (m n : Nat) (h : decDigits m = decDigits n) : m = n := by
  have hm := decValue_decDigitsGo m m (Nat.le_refl m)
  have hn := decValue_decDigitsGo n n (Nat.le_refl n)
  simp only [decDigits] at h
  rw [← hm, ← hn, h]

theorem decDigitsGo_lt_ten (f n : Nat) (h : n ≤ f) :
    ∀ d ∈ decDigitsGo f n, d < 10 := by
  induction f generalizing n with
  | zero =>
    have hn : n = 0 := Nat.le_zero.mp h
    subst hn
    simp [decDigitsGo]
  | succ f ih =>
    by_cases h10 : n < 10
    · intro d hd
      simp [decDigitsGo, h10] at hd
      omega
    · have h1 : n / 10 ≤ f := by omega
      simp only [decDigitsGo, h10, if_false]
      intro d hd
      rcases List.mem_append.mp hd with hl | hr
      · exact ih (n / 10) h1 d hl
      · simp at hr
        omega

theorem decDigitsGo_ne_nil (f n : Nat) : decDigitsGo f n ≠ [] := by
  cases f with
  | zero => simp [decDigitsGo]
  | succ f =>
    by_cases h10 : n < 10 <;> simp [decDigitsGo, h10]

theorem digitChar_lt_ten_ne_colon (d : Nat) (h : d < 10) : digitChar d ≠ ':' := by
  interval_cases d <;> decide

theorem digitChar_lt_ten_ne_dash (d : Nat) (h : d < 10) : digitChar d ≠ '-' := by
  interval_cases d <;> decide

theorem digitChar_inj_lt_ten (d e : Nat) (hd : d < 10) (he : e < 10)
    (h : digitChar d = digitChar e) : d = e := by
  interval_cases d <;> interval_cases e <;> simp_all <;> revert h <;> decide

theorem octValue_append (ds : List Nat) (d : Nat) :
    octValue (ds ++ [d]) = 8 * octValue ds + d := by
  simp [octValue, List.foldl_append]

theorem octValue_head_pos (d : Nat) (rest : List Nat) (hd : d ≠ 0) :
    1 ≤ octValue (d :: rest) := by
  have h := foldl_base_ge 8 (by omega) rest d
  simp only [octValue, List.foldl_cons, Nat.mul_zero, Nat.zero_add]
  omega

/-- A most-significant-first octal digit list with a non-zero leading digit is
recovered exactly by the digit expansion of its value. -/
theorem octDigitsGo_octValue (ds : List Nat) :
    (∀ d ∈ ds, d < 8) → ds ≠ [] → ds.headI ≠ 0 →
    ∀ f, octValue ds ≤ f → octDigitsGo f (octValue ds) = ds := by
  induction ds using List.reverseRecOn with
  | nil => intro _ hne _ _ _; exact absurd rfl hne
  | append_singleton xs d ih =>
    intro hall hne hhead f hf
    cases xs with
    | nil =>
      have hd8 : d < 8 := hall d (by simp)
      have hv : octValue [d] = d := by simp [octValue]
      simp only [List.nil_append] at hf ⊢
      rw [hv] at hf ⊢
      cases f with
      | zero =>
        have hd0 : d = 0 := by omega
        subst hd0
        simp [octDigitsGo]
      | succ f => simp [octDigitsGo, hd8]
    | cons x xt =>
      have hx0 : x ≠ 0 := by simpa using hhead
      have hxne : (x :: xt) ≠ [] := by simp
      have hhead' : (x :: xt).headI ≠ 0 := by simpa using hx0
      have hall' : ∀ e ∈ x :: xt, e < 8 := fun e he => hall e (List.mem_append_left _ he)
      have hd8 : d < 8 := hall d (by simp)
      have hv1 : 1 ≤ octValue (x :: xt) := octValue_head_pos x xt hx0
      have hvapp : octValue ((x :: xt) ++ [d]) = 8 * octValue (x :: xt) + d :=
        octValue_append _ d
      rw [hvapp] at hf ⊢
      cases f with
      | zero => omega
      | succ f =>
        have hnotlt : ¬ (8 * octValue (x :: xt) + d < 8) := by omega
        simp only [octDigitsGo, hnotlt, if_false]
        have hdiv : (8 * octValue (x :: xt) + d) / 8 = octValue (x :: xt) := by omega
        have hmod : (8 * octValue (x :: xt) + d) % 8 = d := by omega
        rw [hdiv, hmod, ih hall' hxne hhead' f (by omega)]

theorem map_digitChar_inj (ds es : List Nat) (hd : ∀ d ∈ ds, d < 10)
    (he : ∀ d ∈ es, d < 10) (h : ds.map digitChar = es.map digitChar) : ds = es := by
  induction ds generalizing es with
  | nil =>
    cases es with
    | nil => rfl
    | cons e et => simp at h
  | cons d dt ih =>
    cases es with
    | nil => simp at h
    | cons e et =>
      simp only [List.map_cons, List.cons.injEq] at h
      have h1 : d = e :=
        digitChar_inj_lt_ten d e (hd d (by simp)) (he e (by simp)) h.1
      have h2 : dt = et :=
        ih et (fun x hx => hd x (List.mem_cons_of_mem _ hx))
          (fun x hx => he x (List.mem_cons_of_mem _ hx)) h.2
      rw [h1, h2]

theorem octDigit?_eq (c : Char) (d : Nat) (h : octDigit? c = some d) :
    c = digitChar d ∧ d < 8 := by
  unfold octDigit? at h
  split_ifs at h with h0 h1 h2 h3 h4 h5 h6 h7
  · injection h with h'; subst h'; exact ⟨by subst h0; rfl, by omega⟩
  · injection h with h'; subst h'; exact ⟨by subst h1; rfl, by omega⟩
  · injection h with h'; subst h'; exact ⟨by subst h2; rfl, by omega⟩
  · injection h with h'; subst h'; exact ⟨by subst h3; rfl, by omega⟩
  · injection h with h'; subst h'; exact ⟨by subst h4; rfl, by omega⟩
  · injection h with h'; subst h'; exact ⟨by subst h5; rfl, by omega⟩
  · injection h with h'; subst h'; exact ⟨by subst h6; rfl, by omega⟩
  · injection h with h'; subst h'; exact ⟨by subst h7; rfl, by omega⟩

theorem octDigitsOfChars_eq (cs : List Char) (ds : List Nat)
    (h : octDigitsOfChars cs = some ds) :
    cs = ds.map digitChar ∧ ∀ d ∈ ds, d < 8 := by
  induction cs generalizing ds with
  | nil =>
    simp only [octDigitsOfChars, Option.some.injEq] at h
    subst h
    simp
  | cons c ct ih =>
    simp only [octDigitsOfChars] at h
    cases hc : octDigit? c with
    | none => rw [hc] at h; simp at h
    | some d =>
      cases hrest : octDigitsOfChars ct with
      | none => rw [hc, hrest] at h; simp at h
      | some dt =>
        rw [hc, hrest] at h
        simp only [Option.some.injEq] at h
        subst h
        obtain ⟨hceq, hd8⟩ := octDigit?_eq c d hc
        obtain ⟨hmap, hall⟩ := ih dt hrest
        refine ⟨by simp [hceq, hmap], ?_⟩
        intro e he
        rcases List.mem_cons.mp he with he | he
        · omega
        · exact hall e he

theorem mem_of_mem_dropWhile_zero (ds : List Nat) (e : Nat)
    (h : e ∈ ds.dropWhile (· == 0)) : e ∈ ds := by
  induction ds with
  | nil => simp [List.dropWhile] at h
  | cons d dt ih =>
    by_cases h0 : d = 0
    · subst h0
      simp only [List.dropWhile] at h
      simp at h
      exact List.mem_cons_of_mem _ (ih h)
    · have hb : (d == 0) = false := by simp [h0]
      simp only [List.dropWhile, hb] at h
      exact h

theorem dropWhile_zero_map (ds : List Nat) (hall : ∀ d ∈ ds, d < 8) :
    (ds.map digitChar).dropWhile (· == '0') = (ds.dropWhile (· == 0)).map digitChar := by
  induction ds with
  | nil => simp
  | cons d dt ih =>
    have hd8 : d < 8 := hall d (by simp)
    by_cases h0 : d = 0
    · subst h0
      have ih' := ih (fun e he => hall e (by simp [he]))
      simp [List.dropWhile, digitChar, ih']
    · have hd1 : 1 ≤ d := by omega
      have hne : (digitChar d == '0') = false := by
        interval_cases d <;> decide
      have hne' : (d == 0) = false := by simp [h0]
      simp [List.dropWhile, hne, hne']

theorem octValue_dropWhile_zero (ds : List Nat) :
    octValue (ds.dropWhile (· == 0)) = octValue ds := by
  induction ds with
  | nil => rfl
  | cons d dt ih =>
    by_cases h0 : d = 0
    · subst h0
      simpa [List.dropWhile, octValue] using ih
    · have hne' : (d == 0) = false := by simp [h0]
      simp [List.dropWhile, hne']

theorem dropWhile_zero_headI (ds : List Nat) (h : ds.dropWhile (· == 0) ≠ []) :
    (ds.dropWhile (· == 0)).headI ≠ 0 := by
  induction ds with
  | nil => simp at h
  | cons d dt ih =>
    by_cases h0 : d = 0
    · subst h0
      have hstep : List.dropWhile (· == 0) (0 :: dt) = List.dropWhile (· == 0) dt := by
        simp [List.dropWhile]
      rw [hstep] at h ⊢
      exact ih h
    · have hne' : (d == 0) = false := by simp [h0]
      simp [List.dropWhile, hne', h0]

/-! ### String lemmas for configKey -/

theorem decDigits_map_no_colon (n : Nat) : ':' ∉ (decDigits n).map digitChar := by
  intro hmem
  rcases List.mem_map.mp hmem with ⟨d, hd, he⟩
  exact digitChar_lt_ten_ne_colon d (decDigitsGo_lt_ten n n (Nat.le_refl n) d hd) he

theorem intRepr_no_colon (i : Int) : ':' ∉ (intRepr i).data := by
  unfold intRepr
  split_ifs with hneg
  · intro hmem
    rw [String.data_append] at hmem
    rcases List.mem_append.mp hmem with hl | hr
    · exact absurd hl (by decide)
    · exact decDigits_map_no_colon _ hr
  · intro hmem
    exact decDigits_map_no_colon _ hmem

theorem intRepr_injective (i j : Int) (h : intRepr i = intRepr j) : i = j := by
  have hdata : (intRepr i).data = (intRepr j).data := by rw [h]
  have hbi := decDigitsGo_lt_ten (-i).toNat (-i).toNat (Nat.le_refl _)
  have hbj := decDigitsGo_lt_ten (-j).toNat (-j).toNat (Nat.le_refl _)
  have hbi' := decDigitsGo_lt_ten i.toNat i.toNat (Nat.le_refl _)
  have hbj' := decDigitsGo_lt_ten j.toNat j.toNat (Nat.le_refl _)
  have hdash : ("-" : String).data = ['-'] := rfl
  unfold intRepr at hdata
  by_cases hi : i < 0 <;> by_cases hj : j < 0 <;>
    simp only [hi, hj, if_true, if_false] at hdata
  · rw [String.data_append, String.data_append] at hdata
    rw [hdash] at hdata
    simp only [List.cons_append, List.nil_append, List.cons.injEq] at hdata
    have hmap : ((decDigits (-i).toNat).map digitChar : List Char) =
        (decDigits (-j).toNat).map digitChar := hdata.2
    have hdig := map_digitChar_inj _ _ hbi hbj hmap
    have htn := decDigits_injective _ _ hdig
    omega
  · exfalso
    rw [String.data_append, hdash] at hdata
    cases hd : decDigits j.toNat with
    | nil => exact decDigitsGo_ne_nil _ _ hd
    | cons d dt =>
      rw [hd] at hdata
      simp only [List.cons_append, List.nil_append, List.map_cons, List.cons.injEq] at hdata
      have hd10 : d < 10 := by
        have := hbj' d
        rw [decDigits] at hd
        rw [hd] at this
        exact this (by simp)
      exact digitChar_lt_ten_ne_dash d hd10 hdata.1.symm
  · exfalso
    rw [String.data_append, hdash] at hdata
    cases hd : decDigits i.toNat with
    | nil => exact decDigitsGo_ne_nil _ _ hd
    | cons d dt =>
      rw [hd] at hdata
      simp only [List.cons_append, List.nil_append, List.map_cons, List.cons.injEq] at hdata
      have hd10 : d < 10 := by
        have := hbi' d
        rw [decDigits] at hd
        rw [hd] at this
        exact this (by simp)
      exact digitChar_lt_ten_ne_dash d hd10 hdata.1
  · have hmap : ((decDigits i.toNat).map digitChar : List Char) =
        (decDigits j.toNat).map digitChar := hdata
    have hdig := map_digitChar_inj _ _ hbi' hbj' hmap
    have htn := decDigits_injective _ _ hdig
    omega

theorem append_colon_inj :
    ∀ (h1 h2 r1 r2 : List Char), ':' ∉ h1 → ':' ∉ h2 →
      h1 ++ ':' :: r1 = h2 ++ ':' :: r2 → h1 = h2 ∧ r1 = r2 := by
  intro h1
  induction h1 with
  | nil =>
    intro h2 r1 r2 _ hh2 h
    cases h2 with
    | nil => simpa using h
    | cons b bt =>
      simp only [List.nil_append, List.cons_append, List.cons.injEq] at h
      exact absurd (by rw [← h.1]; exact List.mem_cons_self _ _) hh2
  | cons a t ih =>
    intro h2 r1 r2 hh1 hh2 h
    cases h2 with
    | nil =>
      simp only [List.cons_append, List.nil_append, List.cons.injEq] at h
      exact absurd (by rw [h.1]; exact List.mem_cons_self _ _) hh1
    | cons b bt =>
      simp only [List.cons_append, List.cons.injEq] at h
      have hh1' : ':' ∉ t := fun hm => hh1 (List.mem_cons_of_mem _ hm)
      have hh2' : ':' ∉ bt := fun hm => hh2 (List.mem_cons_of_mem _ hm)
      obtain ⟨he, ht⟩ := ih bt r1 r2 hh1' hh2' h.2
      exact ⟨by rw [h.1, he], ht⟩

theorem string_data_inj (a b : String) (h : a.data = b.data) : a = b := by
  cases a
  cases b
  exact congrArg String.mk h

theorem configKey_data (c : SSHConfig) :
    (configKey c).data =
      c.Host.data ++ ':' :: ((intRepr c.Port).data ++ ':' :: c.Username.data) := by
  unfold configKey
  rw [String.data_append, String.data_append, String.data_append, String.data_append]
  simp

/-- A successful `acquireFresh` result is always the freshly dialed client. -/
theorem acquireFresh_ok_connect (p : SSHPool) (now : Nat) (key : String)
    (connect : Option Nat) (id : Nat)
    (h : (acquireFresh p now key connect).1 = .ok id) : connect = some id := by
  unfold acquireFresh at h
  by_cases hcap : p.maxConns ≤ p.clients.length
  · rw [if_pos hcap] at h
    simp at h
  · rw [if_neg hcap] at h
    cases connect with
    | none => simp at h
    | some c =>
      simp at h
      rw [h]

/-! ### Claim theorems -/

/-- C3, counterexample to the claim as stated: `configKey` is the bare
`host:port:username` join, so two configs whose (Host, Port, Username) triples
differ can still collide on the same key when a host contains the ':'
separator. -/
theorem C3_configKey_collision :
    configKey { Host := "a:1", Port := 2, Username := "b",
                Password := "", PrivateKey := "" } =
      configKey { Host := "a", Port := 1, Username := "2:b",
                  Password := "", PrivateKey := "" } ∧
    ¬ (("a:1" : String) = "a" ∧ (2 : Int) = 1 ∧ ("b" : String) = "2:b") := by
  constructor
  · rfl
  · intro hc
    exact absurd hc.1 (by decide)

/-- C3 (amended): the pool key depends only on (Host, Port, Username) — any
two configs agreeing on the triple share a key whatever their Password and
PrivateKey are — and distinct triples give distinct keys provided neither
Host contains the ':' separator character. -/
theorem C3_configKey_characterization (c1 c2 : SSHConfig) :
    (c1.Host = c2.Host → c1.Port = c2.Port → c1.Username = c2.Username →
      configKey c1 = configKey c2) ∧
    (':' ∉ c1.Host.data → ':' ∉ c2.Host.data → configKey c1 = configKey c2 →
      c1.Host = c2.Host ∧ c1.Port = c2.Port ∧ c1.Username = c2.Username) := by
  constructor
  · intro h1 h2 h3
    unfold configKey
    rw [h1, h2, h3]
  · intro hh1 hh2 hkey
    have hdata : (configKey c1).data = (configKey c2).data := by rw [hkey]
    rw [configKey_data, configKey_data] at hdata
    obtain ⟨hhost, hrest⟩ := append_colon_inj _ _ _ _ hh1 hh2 hdata
    obtain ⟨hport, huser⟩ :=
      append_colon_inj _ _ _ _ (intRepr_no_colon c1.Port) (intRepr_no_colon c2.Port) hrest
    refine ⟨string_data_inj _ _ hhost, ?_, string_data_inj _ _ huser⟩
    exact intRepr_injective _ _ (string_data_inj _ _ hport)

/-- Witness for C3: both directions at concrete configs — same triple with
different secrets gives the same key, and equal keys with colon-free hosts
force equal triples. -/
theorem C3_configKey_characterization_witness :
    (configKey { Host := "h", Port := 22, Username := "u",
                 Password := "pw", PrivateKey := "" } =
      configKey { Host := "h", Port := 22, Username := "u",
                  Password := "", PrivateKey := "key" }) ∧
    (("h" : String) = "h" ∧ (22 : Int) = 22 ∧ ("u" : String) = "u") := by
  constructor
  · exact (C3_configKey_characterization _ _).1 rfl rfl rfl
  · exact (C3_configKey_characterization
      { Host := "h", Port := 22, Username := "u", Password := "pw", PrivateKey := "" }
      { Host := "h", Port := 22, Username := "u", Password := "", PrivateKey := "key" }).2
      (by decide) (by decide) rfl

/-- C6, counterexample to the claim as stated: "40000000000" is a valid octal
numeral (its value is 2^32), yet ParsePermissions returns the 0644 default
rather than the value it denotes, because strconv.ParseUint is called with
bitSize 32 and range-errors. -/
theorem C6_parsePermissions_overflow :
    octDigitsOfChars ("40000000000" : String).data =
      some [4, 0, 0, 0, 0, 0, 0, 0, 0, 0, 0] ∧
    octValue [4, 0, 0, 0, 0, 0, 0, 0, 0, 0, 0] = 2 ^ 32 ∧
    ParsePermissions "40000000000" = 0o644 ∧ (0o644 : Nat) ≠ 2 ^ 32 := by
  refine ⟨rfl, rfl, rfl, by decide⟩

/-- C6 (amended): for every valid octal string whose value fits in 32 bits,
ParsePermissions returns the value it denotes, and rendering that value the
way the provider does (%04o) gives the string's canonical zero-padded octal
form; the empty string, non-octal strings, and octal strings whose value
exceeds 2^32 - 1 all yield the documented 0644 default. -/
theorem C6_parsePermissions_roundtrip (s : String) :
    (∀ ds, octDigitsOfChars s.data = some ds → ds ≠ [] → octValue ds ≤ 2 ^ 32 - 1 →
      ParsePermissions s = octValue ds ∧
      formatPermissions (ParsePermissions s) = canonOctalString s) ∧
    (octDigitsOfChars s.data = none → ParsePermissions s = 0o644) ∧
    (s = "" → ParsePermissions s = 0o644) ∧
    (∀ ds, octDigitsOfChars s.data = some ds → 2 ^ 32 ≤ octValue ds →
      ParsePermissions s = 0o644) := by
  refine ⟨?_, ?_, ?_, ?_⟩
  · intro ds h hne hle
    have hsne : s ≠ "" := by
      intro he
      subst he
      rw [show ("" : String).data = [] from rfl] at h
      simp only [octDigitsOfChars, Option.some.injEq] at h
      exact hne h.symm
    have hparse : ParsePermissions s = octValue ds := by
      unfold ParsePermissions parseUintOct32
      rw [if_neg hsne, h]
      cases ds with
      | nil => exact absurd rfl hne
      | cons d dt =>
        have hle' : octValue (d :: dt) ≤ 4294967295 := by
          norm_num at hle
          exact hle
        simp [hle']
    refine ⟨hparse, ?_⟩
    rw [hparse]
    obtain ⟨hmap, hall⟩ := octDigitsOfChars_eq s.data ds h
    have hval : octValue (ds.dropWhile (· == 0)) = octValue ds :=
      octValue_dropWhile_zero ds
    have hdrop : s.data.dropWhile (· == '0') = (ds.dropWhile (· == 0)).map digitChar := by
      rw [hmap]
      exact dropWhile_zero_map ds hall
    by_cases hte : ds.dropWhile (· == 0) = []
    · have hv0 : octValue ds = 0 := by rw [← hval, hte]; rfl
      rw [hv0]
      rw [hte] at hdrop
      unfold canonOctalString
      rw [hdrop]
      rfl
    · have hhead := dropWhile_zero_headI ds hte
      have hallt : ∀ d ∈ ds.dropWhile (· == 0), d < 8 :=
        fun d hd => hall d (mem_of_mem_dropWhile_zero ds d hd)
      have hoct : octDigits (octValue ds) = ds.dropWhile (· == 0) := by
        rw [← hval]
        exact octDigitsGo_octValue _ hallt hte hhead _ (Nat.le_refl _)
      unfold formatPermissions canonOctalString
      rw [hoct, hdrop]
      have htm : (ds.dropWhile (· == 0)).map digitChar ≠ [] := by
        simpa using hte
      simp only [htm, if_neg]
      rfl
  · intro h
    by_cases hse : s = ""
    · subst hse; rfl
    · unfold ParsePermissions parseUintOct32
      rw [if_neg hse, h]
  · intro h
    subst h
    rfl
  · intro ds h hge
    by_cases hse : s = ""
    · subst hse; rfl
    · unfold ParsePermissions parseUintOct32
      rw [if_neg hse, h]
      cases ds with
      | nil => rfl
      | cons d dt =>
        have hlt : ¬ octValue (d :: dt) ≤ 4294967295 := by
          norm_num at hge
          omega
        simp [hlt]

/-- Witness for C6 at "0755": a valid in-range octal string parses to its
value and round-trips to its canonical "0755" form. -/
theorem C6_parsePermissions_roundtrip_witness :
    octDigitsOfChars ("0755" : String).data = some [0, 7, 5, 5] ∧
    ([0, 7, 5, 5] : List Nat) ≠ [] ∧ octValue [0, 7, 5, 5] ≤ 2 ^ 32 - 1 ∧
    ParsePermissions "0755" = octValue [0, 7, 5, 5] ∧
    formatPermissions (ParsePermissions "0755") = canonOctalString "0755" := by
  have h := (C6_parsePermissions_roundtrip "0755").1 [0, 7, 5, 5]
    rfl (by decide) (by decide)
  exact ⟨rfl, by decide, by decide, h.1, h.2⟩

/-- C1: when the pool holds an entry for the config's key that is not in use,
GetClient consults the liveness probe on the entry's underlying connection.
Alive: the very same cached client is returned, the entry is marked in-use
with a refreshed lastUsed timestamp, and every other entry and pool field is
untouched. Dead: the entry is removed from the mapping and the call falls
through to fresh creation. An entry already marked in-use at the start of the
call is never returned: the call falls through to fresh creation, and any
successful result is the freshly dialed client. -/
theorem C1_getClient_reuse (p : SSHPool) (now : Nat) (config : SSHConfig)
    (connect : Option Nat) (pc : PooledClient)
    (hpc : lookupKey (configKey config) p.clients = some pc) :
    (pc.inUse = false → pc.alive = true →
      (GetClient p now config connect).1 = .ok pc.clientId ∧
      lookupKey (configKey config) (GetClient p now config connect).2.clients =
        some { pc with inUse := true, lastUsed := now } ∧
      (∀ k', k' ≠ configKey config →
        lookupKey k' (GetClient p now config connect).2.clients =
          lookupKey k' p.clients) ∧
      (GetClient p now config connect).2.maxIdle = p.maxIdle ∧
      (GetClient p now config connect).2.maxConns = p.maxConns) ∧
    (pc.inUse = false → pc.alive = false →
      GetClient p now config connect =
        acquireFresh { p with clients := removeKey (configKey config) p.clients }
          now (configKey config) connect ∧
      lookupKey (configKey config) (removeKey (configKey config) p.clients) = none) ∧
    (pc.inUse = true →
      GetClient p now config connect = acquireFresh p now (configKey config) connect ∧
      (∀ id, (GetClient p now config connect).1 = .ok id → connect = some id)) := by
  refine ⟨?_, ?_, ?_⟩
  · intro hinuse halive
    have hg : GetClient p now config connect =
        (.ok pc.clientId,
         { p with clients := updateKey (configKey config) (fun q => { q with inUse := true, lastUsed := now }) p.clients }) := by
      unfold GetClient
      simp [hpc, hinuse, halive]
    rw [hg]
    refine ⟨rfl, ?_, ?_, rfl, rfl⟩
    · rw [lookupKey_updateKey_self, hpc]
      rfl
    · intro k' hk'
      exact lookupKey_updateKey_ne _ _ _ _ hk'
  · intro hinuse hdead
    constructor
    · unfold GetClient
      simp [hpc, hinuse, hdead]
    · exact lookupKey_removeKey_self _ _
  · intro hinuse
    have hg : GetClient p now config connect =
        acquireFresh p now (configKey config) connect := by
      unfold GetClient
      simp [hpc, hinuse]
    refine ⟨hg, ?_⟩
    intro id hid
    rw [hg] at hid
    exact acquireFresh_ok_connect _ _ _ _ _ hid

/-- Witness for C1: a pool with one idle, alive entry returns exactly the
cached client and marks it in use. -/
theorem C1_getClient_reuse_witness :
    lookupKey
        (configKey { Host := "h", Port := 22, Username := "u",
                     Password := "", PrivateKey := "" })
        ({ clients := [("h:22:u",
            { clientId := 5, lastUsed := 0, inUse := false, alive := true,
              closeFired := false })],
           maxIdle := 300, maxConns := 10 } : SSHPool).clients =
      some { clientId := 5, lastUsed := 0, inUse := false, alive := true,
             closeFired := false } ∧
    (GetClient
        { clients := [("h:22:u",
            { clientId := 5, lastUsed := 0, inUse := false, alive := true,
              closeFired := false })],
          maxIdle := 300, maxConns := 10 }
        7
        { Host := "h", Port := 22, Username := "u", Password := "", PrivateKey := "" }
        (some 9)).1 = .ok 5 := by
  refine ⟨rfl, ?_⟩
  exact ((C1_getClient_reuse
    { clients := [("h:22:u",
        { clientId := 5, lastUsed := 0, inUse := false, alive := true,
          closeFired := false })],
      maxIdle := 300, maxConns := 10 }
    7
    { Host := "h", Port := 22, Username := "u", Password := "", PrivateKey := "" }
    (some 9)
    { clientId := 5, lastUsed := 0, inUse := false, alive := true, closeFired := false }
    rfl).1 rfl rfl).1

/-- C2: when no reusable entry exists for the key — no entry at all, the
entry in use, or a dead entry just removed — GetClient falls through to
`acquireFresh`, which is a synchronous admission decision: on a mapping
holding at least maxConns entries it fails immediately with poolExhausted and
returns the mapping unchanged; below capacity it dials exactly once and, on
success, inserts one new entry marked in-use, leaving every other entry and
pool field unchanged. -/
theorem C2_getClient_poolExhausted (p : SSHPool) (now : Nat) (config : SSHConfig)
    (connect : Option Nat) :
    ((lookupKey (configKey config) p.clients = none ∨
        (∃ pc, lookupKey (configKey config) p.clients = some pc ∧ pc.inUse = true)) →
      GetClient p now config connect = acquireFresh p now (configKey config) connect) ∧
    (∀ pc, lookupKey (configKey config) p.clients = some pc → pc.inUse = false →
      pc.alive = false →
      GetClient p now config connect =
        acquireFresh { p with clients := removeKey (configKey config) p.clients }
          now (configKey config) connect) ∧
    (∀ (q : SSHPool) (key : String),
      q.maxConns ≤ q.clients.length →
      acquireFresh q now key connect = (.error (.poolExhausted q.maxConns), q)) ∧
    (∀ (q : SSHPool) (key : String) (id : Nat),
      q.clients.length < q.maxConns → connect = some id →
      (acquireFresh q now key connect).1 = .ok id ∧
      lookupKey key (acquireFresh q now key connect).2.clients =
        some { clientId := id, lastUsed := now, inUse := true, alive := true,
               closeFired := false } ∧
      (∀ k', k' ≠ key →
        lookupKey k' (acquireFresh q now key connect).2.clients =
          lookupKey k' q.clients) ∧
      (acquireFresh q now key connect).2.maxIdle = q.maxIdle ∧
      (acquireFresh q now key connect).2.maxConns = q.maxConns) := by
  refine ⟨?_, ?_, ?_, ?_⟩
  · intro h
    rcases h with hnone | ⟨pc, hpc, hinuse⟩
    · unfold GetClient
      simp [hnone]
    · unfold GetClient
      simp [hpc, hinuse]
  · intro pc hpc hinuse hdead
    unfold GetClient
    simp [hpc, hinuse, hdead]
  · intro q key hcap
    unfold acquireFresh
    rw [if_pos hcap]
  · intro q key id hcap hconn
    subst hconn
    unfold acquireFresh
    rw [if_neg (by omega)]
    refine ⟨rfl, ?_, ?_, rfl, rfl⟩
    · exact lookupKey_setKey_self _ _ _
    · intro k' hk'
      exact lookupKey_setKey_ne _ _ _ _ hk'

/-- Witness for C2: a pool of capacity 1 whose single entry is in use rejects
an acquire for a fresh key with poolExhausted and is left unchanged. -/
theorem C2_getClient_poolExhausted_witness :
    lookupKey
        (configKey { Host := "h", Port := 22, Username := "u",
                     Password := "", PrivateKey := "" })
        ({ clients := [("x",
            { clientId := 1, lastUsed := 0, inUse := true, alive := true,
              closeFired := false })],
           maxIdle := 300, maxConns := 1 } : SSHPool).clients = none ∧
    GetClient
        { clients := [("x",
            { clientId := 1, lastUsed := 0, inUse := true, alive := true,
              closeFired := false })],
          maxIdle := 300, maxConns := 1 }
        5
        { Host := "h", Port := 22, Username := "u", Password := "", PrivateKey := "" }
        none =
      (.error (.poolExhausted 1),
       { clients := [("x",
           { clientId := 1, lastUsed := 0, inUse := true, alive := true,
             closeFired := false })],
         maxIdle := 300, maxConns := 1 }) := by
  refine ⟨rfl, ?_⟩
  have h1 := (C2_getClient_poolExhausted
    { clients := [("x",
        { clientId := 1, lastUsed := 0, inUse := true, alive := true,
          closeFired := false })],
      maxIdle := 300, maxConns := 1 }
    5
    { Host := "h", Port := 22, Username := "u", Password := "", PrivateKey := "" }
    none).1 (Or.inl rfl)
  have h2 := (C2_getClient_poolExhausted
    { clients := [("x",
        { clientId := 1, lastUsed := 0, inUse := true, alive := true,
          closeFired := false })],
      maxIdle := 300, maxConns := 1 }
    5
    { Host := "h", Port := 22, Username := "u", Password := "", PrivateKey := "" }
    none).2.2.1
    { clients := [("x",
        { clientId := 1, lastUsed := 0, inUse := true, alive := true,
          closeFired := false })],
      maxIdle := 300, maxConns := 1 }
    (configKey { Host := "h", Port := 22, Username := "u",
                 Password := "", PrivateKey := "" })
    (by decide)
  rw [h1, h2]

/-- C5: ReleaseClient with a pooled entry for the key mutates exactly that
entry — inUse cleared, lastUsed refreshed, every other field of the entry and
every other entry and pool field unchanged — and with no entry it leaves the
whole pool untouched. It is total (returns a pool, never an error). -/
theorem C5_releaseClient_frame (p : SSHPool) (now : Nat) (config : SSHConfig) :
    (∀ pc, lookupKey (configKey config) p.clients = some pc →
      lookupKey (configKey config) (ReleaseClient p now config).clients =
        some { pc with inUse := false, lastUsed := now } ∧
      (∀ k', k' ≠ configKey config →
        lookupKey k' (ReleaseClient p now config).clients = lookupKey k' p.clients) ∧
      (ReleaseClient p now config).maxIdle = p.maxIdle ∧
      (ReleaseClient p now config).maxConns = p.maxConns) ∧
    (lookupKey (configKey config) p.clients = none →
      ReleaseClient p now config = p) := by
  constructor
  · intro pc hpc
    have hr : ReleaseClient p now config =
        { p with clients := updateKey (configKey config) (fun q => { q with inUse := false, lastUsed := now }) p.clients } := by
      unfold ReleaseClient
      simp [hpc]
    rw [hr]
    refine ⟨?_, ?_, rfl, rfl⟩
    · rw [lookupKey_updateKey_self, hpc]
      rfl
    · intro k' hk'
      exact lookupKey_updateKey_ne _ _ _ _ hk'
  · intro hnone
    unfold ReleaseClient
    simp [hnone]

/-- Witness for C5: releasing the one in-use entry clears inUse, refreshes
lastUsed and keeps the client identity; releasing an absent key is identity. -/
theorem C5_releaseClient_frame_witness :
    lookupKey
        (configKey { Host := "h", Port := 22, Username := "u",
                     Password := "", PrivateKey := "" })
        ({ clients := [("h:22:u",
            { clientId := 5, lastUsed := 1, inUse := true, alive := true,
              closeFired := false })],
           maxIdle := 300, maxConns := 10 } : SSHPool).clients =
      some { clientId := 5, lastUsed := 1, inUse := true, alive := true,
             closeFired := false } ∧
    lookupKey
        (configKey { Host := "h", Port := 22, Username := "u",
                     Password := "", PrivateKey := "" })
        (ReleaseClient
          { clients := [("h:22:u",
              { clientId := 5, lastUsed := 1, inUse := true, alive := true,
                closeFired := false })],
            maxIdle := 300, maxConns := 10 }
          9
          { Host := "h", Port := 22, Username := "u",
            Password := "", PrivateKey := "" }).clients =
      some { clientId := 5, lastUsed := 9, inUse := false, alive := true,
             closeFired := false } := by
  refine ⟨rfl, ?_⟩
  exact ((C5_releaseClient_frame
    { clients := [("h:22:u",
        { clientId := 5, lastUsed := 1, inUse := true, alive := true,
          closeFired := false })],
      maxIdle := 300, maxConns := 10 }
    9
    { Host := "h", Port := 22, Username := "u", Password := "", PrivateKey := "" }).1
    { clientId := 5, lastUsed := 1, inUse := true, alive := true, closeFired := false }
    rfl).1

/-- C4: one pass of the idle sweep removes exactly the entries that are not
in use and whose idle time strictly exceeds maxIdle, tearing each down
through its one-shot close guard; an in-use entry is never removed no matter
how stale, and a GetClient for a reaped key afterwards falls through to fresh
creation, any successful result being the freshly dialed client. -/
theorem C4_cleanup_sweep (p : SSHPool) (now now' : Nat) (config : SSHConfig)
    (connect : Option Nat) (hnd : NodupKeys p.clients) :
    (∀ k pc, lookupKey k p.clients = some pc →
      (pc.inUse = false → p.maxIdle < now - pc.lastUsed →
        lookupKey k (cleanupPass p now).clients = none ∧
        (pc.closeFired = false → pc.clientId ∈ cleanupClosed p now)) ∧
      (pc.inUse = true → lookupKey k (cleanupPass p now).clients = some pc) ∧
      (¬(pc.inUse = false ∧ p.maxIdle < now - pc.lastUsed) →
        lookupKey k (cleanupPass p now).clients = some pc)) ∧
    (∀ pc, lookupKey (configKey config) p.clients = some pc →
      pc.inUse = false → p.maxIdle < now - pc.lastUsed →
      GetClient (cleanupPass p now) now' config connect =
        acquireFresh (cleanupPass p now) now' (configKey config) connect ∧
      (∀ id, (GetClient (cleanupPass p now) now' config connect).1 = .ok id →
        connect = some id)) := by
  have hfilter : ∀ k pc, lookupKey k p.clients = some pc →
      lookupKey k (cleanupPass p now).clients =
        if !shouldReap p.maxIdle now pc then some pc else none := by
    intro k pc hpc
    exact lookupKey_filter (fun q => !shouldReap p.maxIdle now q) p.clients hnd k pc hpc
  have hmain : ∀ k pc, lookupKey k p.clients = some pc →
      (pc.inUse = false → p.maxIdle < now - pc.lastUsed →
        lookupKey k (cleanupPass p now).clients = none ∧
        (pc.closeFired = false → pc.clientId ∈ cleanupClosed p now)) ∧
      (pc.inUse = true → lookupKey k (cleanupPass p now).clients = some pc) ∧
      (¬(pc.inUse = false ∧ p.maxIdle < now - pc.lastUsed) →
        lookupKey k (cleanupPass p now).clients = some pc) := by
    intro k pc hpc
    refine ⟨?_, ?_, ?_⟩
    · intro hiu hidle
      have hreap : shouldReap p.maxIdle now pc = true := by
        simp [shouldReap, hiu, hidle]
      constructor
      · rw [hfilter k pc hpc, hreap]
        rfl
      · intro hcf
        have hmem : (k, pc) ∈ p.clients := lookupKey_some_mem _ _ _ hpc
        have hmemf : (k, pc) ∈
            p.clients.filter (fun e => shouldReap p.maxIdle now e.2) := by
          refine List.mem_filter.mpr ⟨hmem, ?_⟩
          simpa using hreap
        unfold cleanupClosed
        refine List.mem_filterMap.mpr ⟨(k, pc), hmemf, ?_⟩
        simp [hcf]
    · intro hiu
      have hreap : shouldReap p.maxIdle now pc = false := by
        simp [shouldReap, hiu]
      rw [hfilter k pc hpc, hreap]
      rfl
    · intro hcond
      have hreap : shouldReap p.maxIdle now pc = false := by
        by_cases hiu : pc.inUse = true
        · simp [shouldReap, hiu]
        · have hiu' : pc.inUse = false := by
            cases h : pc.inUse
            · rfl
            · exact absurd h hiu
          have hnidle : ¬ p.maxIdle < now - pc.lastUsed :=
            fun hi => hcond ⟨hiu', hi⟩
          simp [shouldReap, hiu', hnidle]
      rw [hfilter k pc hpc, hreap]
      rfl
  refine ⟨hmain, ?_⟩
  · intro pc hpc hiu hidle
    have hnone : lookupKey (configKey config) (cleanupPass p now).clients = none :=
      ((hmain _ pc hpc).1 hiu hidle).1
    have hg : GetClient (cleanupPass p now) now' config connect =
        acquireFresh (cleanupPass p now) now' (configKey config) connect := by
      unfold GetClient
      simp [hnone]
    refine ⟨hg, ?_⟩
    intro id hid
    rw [hg] at hid
    exact acquireFresh_ok_connect _ _ _ _ _ hid

/-- Witness for C4: a stale idle entry is reaped and torn down; a stale
in-use entry in the same pool survives the pass. -/
theorem C4_cleanup_sweep_witness :
    lookupKey "a"
        ({ clients :=
            [("a", { clientId := 3, lastUsed := 0, inUse := false, alive := true,
                     closeFired := false }),
             ("b", { clientId := 4, lastUsed := 0, inUse := true, alive := true,
                     closeFired := false })],
           maxIdle := 10, maxConns := 10 } : SSHPool).clients =
      some { clientId := 3, lastUsed := 0, inUse := false, alive := true,
             closeFired := false } ∧
    lookupKey "a"
        (cleanupPass
          { clients :=
              [("a", { clientId := 3, lastUsed := 0, inUse := false, alive := true,
                       closeFired := false }),
               ("b", { clientId := 4, lastUsed := 0, inUse := true, alive := true,
                       closeFired := false })],
            maxIdle := 10, maxConns := 10 } 100).clients = none ∧
    3 ∈ cleanupClosed
        { clients :=
            [("a", { clientId := 3, lastUsed := 0, inUse := false, alive := true,
                     closeFired := false }),
             ("b", { clientId := 4, lastUsed := 0, inUse := true, alive := true,
                     closeFired := false })],
          maxIdle := 10, maxConns := 10 } 100 ∧
    lookupKey "b"
        (cleanupPass
          { clients :=
              [("a", { clientId := 3, lastUsed := 0, inUse := false, alive := true,
                       closeFired := false }),
               ("b", { clientId := 4, lastUsed := 0, inUse := true, alive := true,
                       closeFired := false })],
            maxIdle := 10, maxConns := 10 } 100).clients =
      some { clientId := 4, lastUsed := 0, inUse := true, alive := true,
             closeFired := false } := by
  have h := (C4_cleanup_sweep
    { clients :=
        [("a", { clientId := 3, lastUsed := 0, inUse := false, alive := true,
                 closeFired := false }),
         ("b", { clientId := 4, lastUsed := 0, inUse := true, alive := true,
                 closeFired := false })],
      maxIdle := 10, maxConns := 10 } 100 0
    { Host := "h", Port := 22, Username := "u", Password := "", PrivateKey := "" }
    none (by unfold NodupKeys; decide)).1
  have ha := (h "a"
    { clientId := 3, lastUsed := 0, inUse := false, alive := true, closeFired := false }
    rfl).1 rfl (by decide)
  have hb := (h "b"
    { clientId := 4, lastUsed := 0, inUse := true, alive := true, closeFired := false }
    rfl).2.1 rfl
  exact ⟨rfl, ha.1, ha.2 rfl, hb⟩

/-- The MkdirAll fold only ever adds entries: present keys stay present. -/
theorem mkdirAll_step_preserves (qs : List (List String)) (es : List (List String × Nat))
    (x : List String) (h : (lookupKey x es).isSome = true) :
    (lookupKey x (qs.foldl
      (fun es q => if (lookupKey q es).isSome then es else setKey q sftpDefaultDirMode es)
      es)).isSome = true := by
  induction qs generalizing es with
  | nil => exact h
  | cons q qs ih =>
    simp only [List.foldl_cons]
    refine ih _ ?_
    by_cases hq : (lookupKey q es).isSome
    · rw [if_pos hq]
      exact h
    · rw [if_neg hq]
      by_cases hx : x = q
      · subst hx
        rw [lookupKey_setKey_self]
        rfl
      · rw [lookupKey_setKey_ne _ _ _ _ hx]
        exact h

/-- After the MkdirAll fold every processed prefix is present. -/
theorem mkdirAll_fold_mem (qs : List (List String)) (es : List (List String × Nat))
    (x : List String) (hx : x ∈ qs) :
    (lookupKey x (qs.foldl
      (fun es q => if (lookupKey q es).isSome then es else setKey q sftpDefaultDirMode es)
      es)).isSome = true := by
  induction qs generalizing es with
  | nil => simp at hx
  | cons q qs ih =>
    simp only [List.foldl_cons]
    rcases List.mem_cons.mp hx with hx | hx
    · subst hx
      refine mkdirAll_step_preserves qs _ x ?_
      by_cases hq : (lookupKey x es).isSome
      · rwa [if_pos hq]
      · rw [if_neg hq, lookupKey_setKey_self]
        rfl
    · exact ih _ hx

/-- `MkdirAll` makes the target path exist (any non-empty path is the last of
its own prefixes). -/
theorem mkdirAll_exists (fs : RemoteFS) (path : List String) (hne : path ≠ []) :
    (lookupKey path (MkdirAll fs path).entries).isSome = true := by
  unfold MkdirAll
  refine mkdirAll_fold_mem _ _ _ ?_
  unfold pathPrefixes
  refine List.mem_map.mpr ⟨path.length - 1, ?_, ?_⟩
  · refine List.mem_range.mpr ?_
    have : path.length ≠ 0 := fun h => hne (List.eq_nil_of_length_eq_zero h)
    omega
  · have : path.length ≠ 0 := fun h => hne (List.eq_nil_of_length_eq_zero h)
    have hlen : path.length - 1 + 1 = path.length := by omega
    rw [hlen]
    exact List.take_length path

/-- C7: CreateDirectory on an existing path fails with AlreadyExists and the
remote filesystem is untouched; on a missing path it recursively creates the
directory and applies the requested mode, after which Exists is true and
GetFileMode reports the requested permission bits (exactly the requested mode
whenever it is within the 0o777 permission range that Perm() reports). -/
theorem C7_createDirectory (fs : RemoteFS) (path : List String) (mode : Nat)
    (hpath : path ≠ []) :
    (ExistsPath fs path = true →
      CreateDirectory fs path mode = (.error "directory already exists", fs)) ∧
    (ExistsPath fs path = false →
      (CreateDirectory fs path mode).1 = .ok () ∧
      ExistsPath (CreateDirectory fs path mode).2 path = true ∧
      GetFileMode (CreateDirectory fs path mode).2 path = .ok (mode &&& 0o777) ∧
      (mode ≤ 0o777 →
        GetFileMode (CreateDirectory fs path mode).2 path = .ok mode)) := by
  constructor
  · intro hex
    unfold CreateDirectory
    rw [hex]
    rfl
  · intro hex
    have hmk := mkdirAll_exists fs path hpath
    have hchmod : Chmod (MkdirAll fs path) path mode =
        .ok { entries := setKey path mode (MkdirAll fs path).entries } := by
      unfold Chmod
      rw [if_pos hmk]
    have hcd : CreateDirectory fs path mode =
        (.ok (), { entries := setKey path mode (MkdirAll fs path).entries }) := by
      unfold CreateDirectory
      rw [hex]
      simp only [Bool.false_eq_true, if_false]
      rw [hchmod]
    rw [hcd]
    have hlook : lookupKey path
        (setKey path mode (MkdirAll fs path).entries) = some mode :=
      lookupKey_setKey_self _ _ _
    refine ⟨rfl, ?_, ?_, ?_⟩
    · unfold ExistsPath
      rw [hlook]
      rfl
    · unfold GetFileMode
      rw [hlook]
    · intro hmode
      unfold GetFileMode
      rw [hlook]
      have hmask : mode &&& 511 = mode % 512 := by
        have h := Nat.and_pow_two_sub_one_eq_mod mode 9
        norm_num at h
        exact h
      have hid : mode &&& 511 = mode := by
        rw [hmask]
        omega
      show Except.ok (mode &&& 511) = Except.ok mode
      rw [hid]

/-- Witness for C7: creating "/d" with mode 0755 on an empty filesystem
succeeds, makes it exist with mode 0755, and creating it again fails with
AlreadyExists. -/
theorem C7_createDirectory_witness :
    (["d"] : List String) ≠ [] ∧
    ExistsPath { entries := [] } ["d"] = false ∧
    (CreateDirectory { entries := [] } ["d"] 0o755).1 = .ok () ∧
    ExistsPath (CreateDirectory { entries := [] } ["d"] 0o755).2 ["d"] = true ∧
    GetFileMode (CreateDirectory { entries := [] } ["d"] 0o755).2 ["d"] = .ok 0o755 ∧
    CreateDirectory (CreateDirectory { entries := [] } ["d"] 0o755).2 ["d"] 0o755 =
      (.error "directory already exists", (CreateDirectory { entries := [] } ["d"] 0o755).2) := by
  have h := (C7_createDirectory { entries := [] } ["d"] 0o755 (by decide)).2 rfl
  have h2 := (C7_createDirectory (CreateDirectory { entries := [] } ["d"] 0o755).2
    ["d"] 0o755 (by decide)).1 h.2.1
  exact ⟨by decide, rfl, h.1, h.2.1, h.2.2.2 (by decide), h2⟩

/-- C8: with exactly one of User/Group supplied, SetFileOwnership reads the
current ownership and issues one combined chown applying the supplied half
and preserving the current value of the other; with both halves empty it is a
no-op that consults nothing, issues no command and returns no error. -/
theorem C8_setFileOwnership (cur : FileOwnership) (path : String) (o : FileOwnership) :
    (o.User ≠ "" → o.Group = "" →
      SetFileOwnership (.ok cur) path (some o) =
        .ok (true, [.chown o.User cur.Group path])) ∧
    (o.User = "" → o.Group ≠ "" →
      SetFileOwnership (.ok cur) path (some o) =
        .ok (true, [.chown cur.User o.Group path])) ∧
    (o.User = "" → o.Group = "" →
      ∀ current, SetFileOwnership current path (some o) = .ok (false, [])) := by
  refine ⟨?_, ?_, ?_⟩
  · intro hu hg
    unfold SetFileOwnership
    simp [hu, hg]
  · intro hu hg
    unfold SetFileOwnership
    simp [hu, hg]
  · intro hu hg current
    unfold SetFileOwnership
    simp [hu, hg]

/-- Witness for C8: setting only the user while the current group is "staff"
issues chown alice:staff, and an empty ownership request is a silent no-op
even when reading the current ownership would fail. -/
theorem C8_setFileOwnership_witness :
    ("alice" : String) ≠ "" ∧ ("" : String) = "" ∧
    SetFileOwnership (.ok { User := "root", Group := "staff" }) "/f"
        (some { User := "alice", Group := "" }) =
      .ok (true, [.chown "alice" "staff" "/f"]) ∧
    SetFileOwnership (.error "unreachable") "/f"
        (some { User := "", Group := "" }) = .ok (false, []) := by
  refine ⟨by decide, rfl, ?_, ?_⟩
  · exact (C8_setFileOwnership { User := "root", Group := "staff" } "/f"
      { User := "alice", Group := "" }).1 (by decide) rfl
  · exact (C8_setFileOwnership { User := "root", Group := "staff" } "/f"
      { User := "", Group := "" }).2.2 rfl rfl (.error "unreachable")

/-- C9: SetFileAttributes diffs desired against current attributes: the
add-set is exactly the flags desired true but currently false, the remove-set
exactly those desired false but currently true; it issues at most two
commands — one chattr + covering the whole add-set only when that set is
non-empty, one chattr - covering the whole remove-set only when that set is
non-empty — and issues nothing when desired equals current. -/
theorem C9_setFileAttributes (cur a : FileAttributes) (path : String) :
    (SetFileAttributes cur path (some a)).length ≤ 2 ∧
    (a = cur → SetFileAttributes cur path (some a) = []) ∧
    (∀ s, s ∈ addAttrs a cur ↔
      ∃ x ∈ attrFlags a, x.2 = true ∧ currentAttrVal cur x.1 = false ∧ x.1 = s) ∧
    (∀ s, s ∈ removeAttrs a cur ↔
      ∃ x ∈ attrFlags a, x.2 = false ∧ currentAttrVal cur x.1 = true ∧ x.1 = s) ∧
    (addAttrs a cur ≠ [] →
      RemoteCmd.chattrAdd (String.join (addAttrs a cur)) path ∈
        SetFileAttributes cur path (some a)) ∧
    (addAttrs a cur = [] →
      ∀ s p', RemoteCmd.chattrAdd s p' ∉ SetFileAttributes cur path (some a)) ∧
    (removeAttrs a cur ≠ [] →
      RemoteCmd.chattrRemove (String.join (removeAttrs a cur)) path ∈
        SetFileAttributes cur path (some a)) ∧
    (removeAttrs a cur = [] →
      ∀ s p', RemoteCmd.chattrRemove s p' ∉ SetFileAttributes cur path (some a)) := by
  have hg : ∀ (x : String × Bool) (s : String),
      ((if x.2 && !currentAttrVal cur x.1 then some x.1 else none) = some s) ↔
        (x.2 = true ∧ currentAttrVal cur x.1 = false ∧ x.1 = s) := by
    intro x s
    cases hx2 : x.2 <;> cases hcv : currentAttrVal cur x.1 <;> simp [hx2, hcv]
  have hg' : ∀ (x : String × Bool) (s : String),
      ((if !x.2 && currentAttrVal cur x.1 then some x.1 else none) = some s) ↔
        (x.2 = false ∧ currentAttrVal cur x.1 = true ∧ x.1 = s) := by
    intro x s
    cases hx2 : x.2 <;> cases hcv : currentAttrVal cur x.1 <;> simp [hx2, hcv]
  refine ⟨?_, ?_, ?_, ?_, ?_, ?_, ?_, ?_⟩
  · unfold SetFileAttributes
    by_cases ha : addAttrs a cur = [] <;> by_cases hr : removeAttrs a cur = [] <;>
      simp [ha, hr]
  · intro he
    subst he
    have hadd : addAttrs a a = [] := by
      simp [addAttrs, attrFlags, currentAttrVal]
    have hrem : removeAttrs a a = [] := by
      simp [removeAttrs, attrFlags, currentAttrVal]
    unfold SetFileAttributes
    simp [hadd, hrem]
  · intro s
    simp only [addAttrs, List.mem_filterMap]
    exact exists_congr fun x => and_congr_right fun _ => hg x s
  · intro s
    simp only [removeAttrs, List.mem_filterMap]
    exact exists_congr fun x => and_congr_right fun _ => hg' x s
  · intro ha
    unfold SetFileAttributes
    by_cases hr : removeAttrs a cur = [] <;> simp [ha, hr]
  · intro ha s p'
    unfold SetFileAttributes
    by_cases hr : removeAttrs a cur = [] <;> simp [ha, hr]
  · intro hr
    unfold SetFileAttributes
    by_cases ha : addAttrs a cur = [] <;> simp [ha, hr]
  · intro hr s p'
    unfold SetFileAttributes
    by_cases ha : addAttrs a cur = [] <;> simp [ha, hr]

/-- Witness for C9: desiring immutable and noDump on a file currently having
appendOnly and noDump issues exactly chattr +i and chattr -a; desiring the
current state issues nothing. -/
theorem C9_setFileAttributes_witness :
    addAttrs
        { Immutable := true, AppendOnly := false, NoDump := true,
          Synchronous := false, NoAtime := false, Compressed := false,
          NoCoW := false, Undeletable := false }
        { Immutable := false, AppendOnly := true, NoDump := true,
          Synchronous := false, NoAtime := false, Compressed := false,
          NoCoW := false, Undeletable := false } = ["i"] ∧
    removeAttrs
        { Immutable := true, AppendOnly := false, NoDump := true,
          Synchronous := false, NoAtime := false, Compressed := false,
          NoCoW := false, Undeletable := false }
        { Immutable := false, AppendOnly := true, NoDump := true,
          Synchronous := false, NoAtime := false, Compressed := false,
          NoCoW := false, Undeletable := false } = ["a"] ∧
    RemoteCmd.chattrAdd "i" "/f" ∈
      SetFileAttributes
        { Immutable := false, AppendOnly := true, NoDump := true,
          Synchronous := false, NoAtime := false, Compressed := false,
          NoCoW := false, Undeletable := false } "/f"
        (some { Immutable := true, AppendOnly := false, NoDump := true,
                Synchronous := false, NoAtime := false, Compressed := false,
                NoCoW := false, Undeletable := false }) ∧
    SetFileAttributes
        { Immutable := false, AppendOnly := true, NoDump := true,
          Synchronous := false, NoAtime := false, Compressed := false,
          NoCoW := false, Undeletable := false } "/f"
        (some { Immutable := false, AppendOnly := true, NoDump := true,
                Synchronous := false, NoAtime := false, Compressed := false,
                NoCoW := false, Undeletable := false }) = [] := by
  refine ⟨rfl, rfl, ?_, ?_⟩
  · have h := (C9_setFileAttributes
      { Immutable := false, AppendOnly := true, NoDump := true,
        Synchronous := false, NoAtime := false, Compressed := false,
        NoCoW := false, Undeletable := false }
      { Immutable := true, AppendOnly := false, NoDump := true,
        Synchronous := false, NoAtime := false, Compressed := false,
        NoCoW := false, Undeletable := false } "/f").2.2.2.2.1 (by decide)
    simpa using h
  · exact (C9_setFileAttributes
      { Immutable := false, AppendOnly := true, NoDump := true,
        Synchronous := false, NoAtime := false, Compressed := false,
        NoCoW := false, Undeletable := false }
      { Immutable := false, AppendOnly := true, NoDump := true,
        Synchronous := false, NoAtime := false, Compressed := false,
        NoCoW := false, Undeletable := false } "/f").2.1 rfl

/-- C10: a successful attribute listing never yields a parse error — the
result is always a FileAttributes value; output shorter than 16 bytes gives
the all-false zero value, and with at least 16 bytes each flag is set exactly
when its character occurs anywhere in the first 16 bytes (substring
containment, not positional). -/
theorem C10_getFileAttributes_parse (out : List Char) :
    GetFileAttributes (.ok out) = .ok (parseLsattr out) ∧
    (out.length < 16 → parseLsattr out = emptyAttrs) ∧
    (16 ≤ out.length →
      ((parseLsattr out).Immutable = true ↔ 'i' ∈ out.take 16) ∧
      ((parseLsattr out).AppendOnly = true ↔ 'a' ∈ out.take 16) ∧
      ((parseLsattr out).NoDump = true ↔ 'd' ∈ out.take 16) ∧
      ((parseLsattr out).Synchronous = true ↔ 'S' ∈ out.take 16) ∧
      ((parseLsattr out).NoAtime = true ↔ 'A' ∈ out.take 16) ∧
      ((parseLsattr out).Compressed = true ↔ 'c' ∈ out.take 16) ∧
      ((parseLsattr out).NoCoW = true ↔ 'C' ∈ out.take 16) ∧
      ((parseLsattr out).Undeletable = true ↔ 'u' ∈ out.take 16)) := by
  refine ⟨rfl, ?_, ?_⟩
  · intro hlen
    unfold parseLsattr
    rw [if_neg (by omega)]
  · intro hlen
    unfold parseLsattr
    rw [if_pos hlen]
    refine ⟨?_, ?_, ?_, ?_, ?_, ?_, ?_, ?_⟩ <;> simp [List.elem_iff]

/-- Witness for C10: a 16-byte lsattr flag field "----i-a---------" parses to
immutable and appendOnly true and everything else false; the 3-byte output
"-i-" parses to the zero value. -/
theorem C10_getFileAttributes_parse_witness :
    (("----i-a---------".data : List Char).length ≥ 16 ∧
      (parseLsattr "----i-a---------".data).Immutable = true ∧
      (parseLsattr "----i-a---------".data).NoDump = false) ∧
    (("-i-".data : List Char).length < 16 ∧
      parseLsattr "-i-".data = emptyAttrs) := by
  constructor
  · refine ⟨by decide, ?_, by decide⟩
    exact ((C10_getFileAttributes_parse "----i-a---------".data).2.2
      (by decide)).1.mpr (by decide)
  · exact ⟨by decide, (C10_getFileAttributes_parse "-i-".data).2.1 (by decide)⟩

end AskrellaSSH
